import Mathlib

/-
Verification of the disk-hog-backup repository (Go) against its
natural-language specification.

Shallow embedding of the components the claims are about:
  * `backup_sets/set_namer.go`   — GenerateName, IsBackupSetName
  * `backup_sets/backup_set.go`  — CreateEmptySet, FindLatestSet
  * `dhcopy/copy_file.go`        — CopyFile
  * `dhcopy/copy_folder.go`      — CopyFolder
  * `hard_linker` (HardLinkCopy)
  * `backup/backup.go`           — Backup

Modelling conventions:
  * Filesystems are trees of named entries.  A destination-side regular file
    is an inode number; file bytes live in a separate inode table, so hard
    links (several paths naming one inode) are expressible.
  * `ioutil.ReadDir` returns entries sorted by file name, so directory entry
    lists are kept in byte-lexicographic name order (`strLt`) and reading a
    directory is reading its entry list.
  * `log.Fatal` terminates the whole process; it is modelled as the `fatal`
    result, distinct from an `error` return value.
  * A source file that cannot be opened (`os.Open` failing) is modelled as a
    source file whose content is `none`.
-/

namespace DiskHog

/-- The (Year, Month, Day, Hour, Minute, Second) view of a Go `time.Time`,
as consumed by `GenerateName` via `getTime()`. -/
structure GoTime where
  year : Nat
  month : Nat
  day : Nat
  hour : Nat
  minute : Nat
  second : Nat

/-- `fmt.Sprintf` verb `%0wd` applied to a nonnegative integer: the decimal
digits of `n`, left-padded with zeros to width `w` (wider numbers keep all
their digits). -/
def sprintfPad (w n : Nat) : String :=
  String.mk (List.replicate (w - (Nat.repr n).length) '0') ++ Nat.repr n

/-- `backup_sets/set_namer.go` `GenerateName`:
`fmt.Sprintf("dhb-set-%04d%02d%02d-%02d%02d%02d", Year, Month, Day, Hour, Minute, Second)`. -/
def GenerateName (t : GoTime) : String :=
  "dhb-set-" ++ sprintfPad 4 t.year ++ sprintfPad 2 t.month ++ sprintfPad 2 t.day
    ++ "-" ++ sprintfPad 2 t.hour ++ sprintfPad 2 t.minute ++ sprintfPad 2 t.second

/-- `backup_sets/set_namer.go` `IsBackupSetName`: match against the regex
`^dhb-set-[0-9]{8}-[0-9]{6}$`. -/
def IsBackupSetName (s : String) : Bool :=
  let cs := s.toList
  decide (cs.length = 23) &&
  decide (cs.take 8 = "dhb-set-".toList) &&
  ((cs.drop 8).take 8).all Char.isDigit &&
  decide ((cs.drop 16).take 1 = ['-']) &&
  (cs.drop 17).all Char.isDigit

/-- Byte-wise lexicographic "less than" on characters viewed as code points.
For the ASCII set names at hand this coincides with Go's byte-wise string
order (UTF-8 byte order equals code-point order). -/
def lexLt : List Char → List Char → Bool
  | _, [] => false
  | [], _ :: _ => true
  | a :: as, b :: bs =>
    if a.val < b.val then true
    else if b.val < a.val then false
    else lexLt as bs

/-- Go's `<` on strings (byte-wise lexicographic). -/
def strLt (a b : String) : Bool := lexLt a.toList b.toList

/-- Go's `<=` on strings. -/
def strLe (a b : String) : Bool := !(strLt b a)

/-- `backup_sets/backup_set.go` `FindLatestSet`, applied to the name listing
produced by `ioutil.ReadDir(dest)` (sorted by name): keep the names accepted
by `IsBackupSetName` (`filterDir`), return `""` if none remain, otherwise the
last (= lexicographically greatest) one. -/
def FindLatestSet (names : List String) : String :=
  let backupSets := names.filter IsBackupSetName
  match backupSets.getLast? with
  | none => ""
  | some n => n

/-- `FindLatestSet` including the enumeration step: if `ioutil.ReadDir(dest)`
fails the error is returned unchanged (`return "", err`), otherwise the
result is computed from the listing and no error is returned. -/
def FindLatestSetE (listing : Except Unit (List String)) : Except Unit String :=
  match listing with
  | .error e => .error e
  | .ok names => .ok (FindLatestSet names)

/-- `true` iff enumerating the destination succeeded. -/
def listingOk {α : Type} : Except Unit α → Bool
  | .ok _ => true
  | .error _ => false

/-- A node of the destination filesystem: a regular file is an inode number
(bytes live in the inode table of `DestFS`, so hard links are several paths
holding the same number); a directory is its name-sorted entry list. -/
inductive DNode where
  | file (ino : Nat)
  | dir (entries : List (String × DNode))

/-- Entry list of a destination directory, kept in `ReadDir` order. -/
abbrev Entries := List (String × DNode)

/-- A node of the source tree being backed up.  A regular file carries its
bytes; `none` models a file `os.Open` fails on. -/
inductive SrcNode where
  | file (content : Option String)
  | dir (entries : List (String × SrcNode))

/-- Look a name up in a directory entry list. -/
def lookupEntry (name : String) : List (String × DNode) → Option DNode
  | [] => none
  | (n, v) :: rest => if name = n then some v else lookupEntry name rest

/-- Bind `name` to `node` in a directory entry list, keeping the list in
byte-lexicographic name order (the order `ioutil.ReadDir` reports). -/
def insertEntry (name : String) (node : DNode) : List (String × DNode) → List (String × DNode)
  | [] => [(name, node)]
  | (n, v) :: rest =>
    if strLt name n then (name, node) :: (n, v) :: rest
    else if name = n then (name, node) :: rest
    else (n, v) :: insertEntry name node rest

/-- Resolve a relative path (list of components) against a node. -/
def getNodeAt : DNode → List String → Option DNode
  | node, [] => some node
  | .dir es, name :: rest =>
    match lookupEntry name es with
    | some child => getNodeAt child rest
    | none => none
  | .file _, _ :: _ => none

/-- Read an inode's bytes from the inode table. -/
def readIno (ino : Nat) : List (Nat × String) → Option String
  | [] => none
  | (i, s) :: rest => if ino = i then some s else readIno ino rest

/-- Replace an inode's bytes in the inode table. -/
def writeIno (ino : Nat) (text : String) : List (Nat × String) → List (Nat × String)
  | [] => []
  | (i, s) :: rest => if ino = i then (i, text) :: rest else (i, s) :: writeIno ino text rest

/-- The destination-side inode table together with the next fresh inode
number. -/
structure Store where
  inodes : List (Nat × String)
  nextIno : Nat

/-- The destination filesystem: the entry list of the destination root
directory, plus the inode table. -/
structure DestFS where
  root : Entries
  store : Store

/-- Bytes of the regular file at `p` (relative to the destination root). -/
def DestFS.readFile (fs : DestFS) (p : List String) : Option String :=
  match getNodeAt (.dir fs.root) p with
  | some (.file ino) => readIno ino fs.store.inodes
  | _ => none

/-- Inode number of the regular file at `p`. -/
def DestFS.fileIno (fs : DestFS) (p : List String) : Option Nat :=
  match getNodeAt (.dir fs.root) p with
  | some (.file ino) => some ino
  | _ => none

/-- `os.SameFile` on two destination paths: both are regular files on the
same inode. -/
def sameFile (fs : DestFS) (p q : List String) : Bool :=
  match fs.fileIno p, fs.fileIno q with
  | some i, some j => i == j
  | _, _ => false

/-- Result of a copying step.  `fatal` is `log.Fatal` (the process exits);
`err` is an error value returned to the caller; both `err` and `ok` carry
the destination directory entries and inode table as left behind. -/
inductive CopyRes where
  | fatal
  | err (d : Entries) (st : Store)
  | ok (d : Entries) (st : Store)

/-- `dhcopy/copy_file.go` `CopyFile(source, dest)` for a destination entry
`name` inside the destination directory `dest`:
  * `os.Open(source)` failing is `log.Fatal`;
  * `os.Create(dest)` on an existing regular file opens and truncates that
    file's inode in place — hard links to it stay in place and now name the
    rewritten bytes; on an existing directory it fails (`log.Fatal`);
    otherwise it creates a fresh inode;
  * `io.Copy` then writes the source bytes to the opened inode. -/
def CopyFile (content : Option String) (name : String) (dest : Entries) (st : Store) : CopyRes :=
  match content with
  | none => .fatal
  | some text =>
    match lookupEntry name dest with
    | some (.file ino) => .ok dest ⟨writeIno ino text st.inodes, st.nextIno⟩
    | some (.dir _) => .fatal
    | none => .ok (insertEntry name (.file st.nextIno) dest) ⟨st.inodes ++ [(st.nextIno, text)], st.nextIno + 1⟩

mutual

/-- One iteration of the `dhcopy/copy_folder.go` `CopyFolder` loop, for the
source entry `(name, item)` against the destination directory `dest`:
  * a directory entry does `os.Mkdir(destFolder)` — any existing entry of
    that name makes `os.Mkdir` fail, which is `log.Fatal` — and then recurses
    (`CopyFolder` on a directory is `ReadDir` + the loop, i.e. `copyEntries`
    on its entries against the freshly created empty directory); an error
    returned by the recursion is returned (`return err`);
  * a file entry runs `CopyFile`. -/
def copyItem (name : String) (item : SrcNode) (dest : Entries) (st : Store) : CopyRes :=
  match item with
  | .dir sub =>
    match lookupEntry name dest with
    | some _ => .fatal
    | none =>
      match copyEntries sub [] st with
      | .fatal => .fatal
      | .err d st' => .err (insertEntry name (.dir d) dest) st'
      | .ok d st' => .ok (insertEntry name (.dir d) dest) st'
  | .file content => CopyFile content name dest st

/-- The `CopyFolder` loop over the source directory listing (in `ReadDir`
order): process each entry in turn, stopping at a `log.Fatal` or at an error
returned by a recursive call. -/
def copyEntries (items : List (String × SrcNode)) (dest : Entries) (st : Store) : CopyRes :=
  match items with
  | [] => .ok dest st
  | (name, item) :: rest =>
    match copyItem name item dest st with
    | .fatal => .fatal
    | .err d st' => .err d st'
    | .ok d st' => copyEntries rest d st'

end

/-- `dhcopy/copy_folder.go` `CopyFolder(source, dest)`:
`ioutil.ReadDir(source)` fails on a non-directory (`log.Fatal`); otherwise
iterate over the listing. -/
def CopyFolder (source : SrcNode) (dest : Entries) (st : Store) : CopyRes :=
  match source with
  | .file _ => .fatal
  | .dir items => copyEntries items dest st

mutual

/-- `true` iff the source node is, or contains, a file `os.Open` fails on. -/
def itemUnreadable : SrcNode → Bool
  | .file content => content.isNone
  | .dir entries => entriesUnreadable entries

/-- `true` iff some entry of the source listing contains an unopenable file. -/
def entriesUnreadable : List (String × SrcNode) → Bool
  | [] => false
  | (_, item) :: rest => itemUnreadable item || entriesUnreadable rest

end

/-- Result of `hard_linker.HardLinkCopy`: `log.Fatal`, an error return, or
success, the latter two carrying the destination directory entries built so
far (hard-linking never touches the inode table). -/
inductive HLRes where
  | fatal
  | err (d : Entries)
  | ok (d : Entries)

mutual

/-- One iteration of the `hard_linker` `HardLinkCopy` loop for the source
entry `(name, node)` against the destination directory `dest`:
  * a directory entry does `os.Mkdir` (failure, e.g. an existing entry, is
    `log.Fatal`) and recurses; a recursion error is returned and leaves the
    partially linked child in place;
  * a file entry does `os.Link(source/name, dest/name)`, which fails with an
    error (returned to the caller) if the target exists, and otherwise makes
    `dest/name` a second path for the same inode. -/
def linkItem (name : String) (node : DNode) (dest : Entries) : HLRes :=
  match node with
  | .file ino =>
    match lookupEntry name dest with
    | some _ => .err dest
    | none => .ok (insertEntry name (.file ino) dest)
  | .dir sub =>
    match lookupEntry name dest with
    | some _ => .fatal
    | none =>
      match hlEntries sub [] with
      | .fatal => .fatal
      | .err d => .err (insertEntry name (.dir d) dest)
      | .ok d => .ok (insertEntry name (.dir d) dest)

/-- The `HardLinkCopy` loop over the source directory listing (in `ReadDir`
order). -/
def hlEntries (items : List (String × DNode)) (dest : Entries) : HLRes :=
  match items with
  | [] => .ok dest
  | (name, node) :: rest =>
    match linkItem name node dest with
    | .fatal => .fatal
    | .err d => .err d
    | .ok d => hlEntries rest d

end

/-- `hard_linker.HardLinkCopy(source, dest)`: `ioutil.ReadDir(source)` fails
on a non-directory (`log.Fatal`); otherwise iterate over the listing. -/
def HardLinkCopy (source : DNode) (dest : Entries) : HLRes :=
  match source with
  | .file _ => .fatal
  | .dir items => hlEntries items dest

/-- `os.MkdirAll(filepath.Join(dest, name))` with the destination root
already existing: an existing directory is success without change, an
existing regular file is an error, otherwise the directory is created. -/
def mkdirAllAtRoot (name : String) (root : Entries) : Option Entries :=
  match lookupEntry name root with
  | some (.dir _) => some root
  | some (.file _) => none
  | none => some (insertEntry name (.dir []) root)

/-- `backup_sets/backup_set.go` `CreateEmptySet(dest, getTime)`: the set name
is `GenerateName` of the provided time, and `os.MkdirAll` makes the set
directory; the name is returned together with `os.MkdirAll`'s outcome. -/
def CreateEmptySet (root : Entries) (t : GoTime) : String × Option Entries :=
  (GenerateName t, mkdirAllAtRoot (GenerateName t) root)

/-- Outcome of a whole `Backup` run. -/
inductive BackupRes where
  | fatal
  | err (fs : DestFS)
  | ok (fs : DestFS)

/-- `Backup` discards the error value returned by `HardLinkCopy` (the call's
result is not checked), but a `log.Fatal` inside it still ends the run. -/
def hlDiscardingErr (r : HLRes) : Option Entries :=
  match r with
  | .fatal => none
  | .err d => some d
  | .ok d => some d

/-- `backup/backup.go` `Backup(source, dest, getTime)`:
  1. `os.MkdirAll(dest)` — the destination root exists in the model;
  2. `FindLatestSet(dest)` over the root listing (`log.Fatal` on error, which
     cannot happen for an existing root);
  3. `CreateEmptySet(dest, getTime)` (`log.Fatal` on error);
  4. if a previous set was found, `HardLinkCopy(dest/lastSet, dest/newSet)`,
     whose returned error is ignored;
  5. `CopyFolder(source, dest/newSet)`, whose error becomes `Backup`'s.
The new set directory is operated on locally and bound into the root at the
end; `HardLinkCopy` and `CopyFolder` only write inside the new set, and only
`HardLinkCopy` reads the previous set, so this matches the path-based
mutation order of the Go code. -/
def Backup (source : SrcNode) (fs : DestFS) (t : GoTime) : String × BackupRes :=
  let lastSetName := FindLatestSet (fs.root.map Prod.fst)
  match CreateEmptySet fs.root t with
  | (setName, none) => (setName, .fatal)
  | (setName, some root1) =>
    let setDir0 : Entries :=
      match lookupEntry setName root1 with
      | some (.dir d) => d
      | _ => []
    let linked : HLRes :=
      if lastSetName = "" then .ok setDir0
      else
        match lookupEntry lastSetName fs.root with
        | some node => HardLinkCopy node setDir0
        | none => .fatal
    match hlDiscardingErr linked with
    | none => (setName, .fatal)
    | some d =>
      match CopyFolder source d fs.store with
      | .fatal => (setName, .fatal)
      | .err d' st' => (setName, .err ⟨insertEntry setName (.dir d') root1, st'⟩)
      | .ok d' st' => (setName, .ok ⟨insertEntry setName (.dir d') root1, st'⟩)

/-! Concrete scenarios used to settle the end-to-end claims. -/

/-- A destination root with no entries yet. -/
def emptyDest : DestFS := ⟨[], ⟨[], 0⟩⟩

/-- Source tree of the hard-link scenario before the mutation:
`linkme.txt = "hello go"`. -/
def linkSrc1 : SrcNode := .dir [("linkme.txt", .file (some "hello go"))]

/-- The same source tree after `linkme.txt` is rewritten between the runs. -/
def linkSrc2 : SrcNode := .dir [("linkme.txt", .file (some "changed content"))]

/-- Time of run 1: `2019-12-31 23:59 UTC + 1h`. -/
def runTime1 : GoTime := ⟨2020, 1, 1, 0, 59, 0⟩

/-- Time of run 2: `2019-12-31 23:59 UTC + 2h`. -/
def runTime2 : GoTime := ⟨2020, 1, 1, 1, 59, 0⟩

/-- Destination after run 1 of the hard-link scenario. -/
def fsAfterRun1 : DestFS :=
  ⟨[("dhb-set-20200101-005900", .dir [("linkme.txt", .file 0)])],
   ⟨[(0, "hello go")], 1⟩⟩

/-- Destination after run 2 of the hard-link scenario: both sets' copies sit
on inode 0, whose bytes are now the new content. -/
def fsAfterRun2 : DestFS :=
  ⟨[("dhb-set-20200101-005900", .dir [("linkme.txt", .file 0)]),
    ("dhb-set-20200101-015900", .dir [("linkme.txt", .file 0)])],
   ⟨[(0, "changed content")], 1⟩⟩

/-- A source tree with a subdirectory chain, as in the repository's own
`TestHardLinksSecondBackup` fixture (`linkme.txt` plus `thats/deep/testfile.txt`). -/
def deepSrc : SrcNode :=
  .dir [("linkme.txt", .file (some "hello go")),
        ("thats", .dir [("deep", .dir [("testfile.txt", .file (some "backmeup susie"))])])]

/-- Destination after run 1 over `deepSrc`. -/
def fsDeepAfterRun1 : DestFS :=
  ⟨[("dhb-set-20200101-005900",
     .dir [("linkme.txt", .file 0),
           ("thats", .dir [("deep", .dir [("testfile.txt", .file 1)])])])],
   ⟨[(0, "hello go"), (1, "backmeup susie")], 2⟩⟩

/-- Source with a single file, body `backmeup susie\n`. -/
def singleSrc : SrcNode := .dir [("testfile.txt", .file (some "backmeup susie\n"))]

/-- Time of the fresh-destination scenario: `2024-01-01 00:00:00Z`. -/
def freshTime : GoTime := ⟨2024, 1, 1, 0, 0, 0⟩

/-- Destination after the fresh-destination, single-file run. -/
def fsSingleAfter : DestFS :=
  ⟨[("dhb-set-20240101-000000", .dir [("testfile.txt", .file 0)])],
   ⟨[(0, "backmeup susie\n")], 1⟩⟩

/-- A source directory whose first file cannot be opened and whose second
file is fine. -/
def unreadableSrc : SrcNode :=
  .dir [("bad.txt", .file none), ("good.txt", .file (some "payload"))]

end DiskHog

namespace DiskHog

/-! Basic lemmas about the order on names and about directory entry lists. -/

theorem lexLt_irrefl (l : List Char) : lexLt l l = false := by
  induction l with
  | nil => rfl
  | cons a as ih => simp [lexLt, ih]

theorem strLt_irrefl (s : String) : strLt s s = false := by
  simp [strLt, lexLt_irrefl]

theorem strLe_refl (s : String) : strLe s s = true := by
  simp [strLe, strLt_irrefl]

theorem lookupEntry_insertEntry (k m : String) (x : DNode) (es : Entries) :
    lookupEntry k (insertEntry m x es) =
      if k = m then some x else lookupEntry k es := by
  induction es with
  | nil =>
    by_cases hkm : k = m <;> simp [insertEntry, lookupEntry, hkm]
  | cons hd tl ih =>
    obtain ⟨n, v⟩ := hd
    by_cases hlt : strLt m n
    · by_cases hkm : k = m <;> simp [insertEntry, hlt, lookupEntry, hkm]
    · by_cases hmn : m = n
      · subst hmn
        by_cases hkm : k = m <;> simp [insertEntry, hlt, lookupEntry, hkm]
      · by_cases hkn : k = n
        · subst hkn
          have hkm : ¬k = m := fun h => hmn h.symm
          simp [insertEntry, hlt, hmn, lookupEntry, hkm]
        · by_cases hkm : k = m
          · subst hkm
            simp [insertEntry, hlt, hmn, lookupEntry, hkn, ih]
          · simp [insertEntry, hlt, hmn, lookupEntry, hkn, hkm, ih]

/-- Claim C4 (amended): a backup run into an empty destination from a source
containing a single file produces a set directory named from the run's
timestamp whose only entry is that file, byte-identical to the source; no
manifest file is written. -/
theorem backup_fresh_single_file (name text : String) (t : GoTime) :
    Backup (.dir [(name, .file (some text))]) emptyDest t =
      (GenerateName t, .ok ⟨[(GenerateName t, .dir [(name, .file 0)])], ⟨[(0, text)], 1⟩⟩) := by
  simp [Backup, emptyDest, FindLatestSet, CreateEmptySet, mkdirAllAtRoot, lookupEntry,
        insertEntry, hlDiscardingErr, CopyFolder, copyEntries, copyItem, CopyFile, strLt_irrefl]

/-- Claim C9: `CreateEmptySet` always returns the generated name; it fails
exactly when the set path exists as a regular file (`os.MkdirAll` error); an
already existing set directory is not an error; and a second run whose time
provider yields the same second returns the same name successfully without
changing the destination — the two runs silently share one set directory. -/
theorem createEmptySet_spec (root : Entries) (t : GoTime) :
    (CreateEmptySet root t).1 = GenerateName t ∧
    ((CreateEmptySet root t).2 = none ↔
      ∃ ino, lookupEntry (GenerateName t) root = some (.file ino)) ∧
    (∀ d, lookupEntry (GenerateName t) root = some (.dir d) →
      (CreateEmptySet root t).2 = some root) ∧
    (∀ root1, (CreateEmptySet root t).2 = some root1 →
      CreateEmptySet root1 t = (GenerateName t, some root1)) := by
  refine ⟨rfl, ?_, ?_, ?_⟩
  · cases hl : lookupEntry (GenerateName t) root with
    | none => simp [CreateEmptySet, mkdirAllAtRoot, hl]
    | some node => cases node <;> simp [CreateEmptySet, mkdirAllAtRoot, hl]
  · intro d hd
    simp [CreateEmptySet, mkdirAllAtRoot, hd]
  · intro root1 h1
    cases hl : lookupEntry (GenerateName t) root with
    | none =>
      simp only [CreateEmptySet, mkdirAllAtRoot, hl] at h1
      cases h1
      simp [CreateEmptySet, mkdirAllAtRoot, lookupEntry_insertEntry]
    | some node =>
      cases node with
      | file ino => simp [CreateEmptySet, mkdirAllAtRoot, hl] at h1
      | dir d =>
        simp only [CreateEmptySet, mkdirAllAtRoot, hl] at h1
        cases h1
        simp [CreateEmptySet, mkdirAllAtRoot, hl]

/-- Claim C9 witness: with the set directory already present, `CreateEmptySet`
for the same second succeeds, returns the same name, and leaves the
destination unchanged. -/
theorem createEmptySet_spec_witness :
    CreateEmptySet [("dhb-set-20010203-140506", DNode.dir [])] ⟨2001, 2, 3, 14, 5, 6⟩ =
      ("dhb-set-20010203-140506", some [("dhb-set-20010203-140506", DNode.dir [])]) :=
  (createEmptySet_spec [("dhb-set-20010203-140506", DNode.dir [])] ⟨2001, 2, 3, 14, 5, 6⟩).2.2.2
    [("dhb-set-20010203-140506", DNode.dir [])] rfl

/-- Claim C7: `FindLatestSet` surfaces an error exactly when enumerating the
destination fails, and an error-free listing with no set-shaped names yields
the empty name with no error. -/
theorem findLatestSet_error_iff (r : Except Unit (List String)) :
    listingOk (FindLatestSetE r) = listingOk r ∧
    (∀ names, r = .ok names → names.filter IsBackupSetName = [] →
      FindLatestSetE r = .ok "") := by
  constructor
  · cases r <;> rfl
  · intro names hr hf
    subst hr
    simp [FindLatestSetE, FindLatestSet, hf]

/-- Claim C7 witness: a listing with only non-set names yields `ok ""`. -/
theorem findLatestSet_error_iff_witness :
    FindLatestSetE (.ok ["junk", "dhb-set-1999"]) = .ok "" :=
  (findLatestSet_error_iff (.ok ["junk", "dhb-set-1999"])).2 ["junk", "dhb-set-1999"] rfl rfl

/-- The `CopyFolder` loop never returns a non-fatal error: its only error
source would be a recursive call, and the base operations either succeed or
`log.Fatal`. -/
theorem copyEntries_never_err :
    ∀ (items : List (String × SrcNode)) (dest : Entries) (st : Store) (d : Entries) (s : Store),
      copyEntries items dest st ≠ .err d s := by
  refine @copyEntries.induct
    (fun name item dest st => ∀ d s, copyItem name item dest st ≠ .err d s)
    (fun items dest st => ∀ d s, copyEntries items dest st ≠ .err d s)
    ?_ ?_ ?_ ?_ ?_ ?_ ?_ ?_ ?_
  · intro name dest st sub child hl d s
    simp [copyItem, hl]
  · intro name dest st sub hl hsub ih d s
    simp [copyItem, hl, hsub]
  · intro name dest st sub hl d st' hsub ih d2 s2
    exact absurd hsub (ih _ _)
  · intro name dest st sub hl d st' hsub ih d2 s2
    simp [copyItem, hl, hsub]
  · intro name dest st content d s
    cases content with
    | none => simp [copyItem, CopyFile]
    | some text =>
      cases hl : lookupEntry name dest with
      | none => simp [copyItem, CopyFile, hl]
      | some node => cases node <;> simp [copyItem, CopyFile, hl]
  · intro dest st d s
    simp [copyEntries]
  · intro dest st name item rest h ih d s
    simp [copyEntries, h]
  · intro dest st name item rest d st' h ih d2 s2
    exact absurd h (ih _ _)
  · intro dest st name item rest d st' h ih1 ih2 d2 s2
    simp only [copyEntries, h]
    exact ih2 _ _

/-- A single `CopyFolder` loop iteration never returns a non-fatal error. -/
theorem copyItem_never_err (name : String) (item : SrcNode) (dest : Entries) (st : Store)
    (d : Entries) (s : Store) : copyItem name item dest st ≠ .err d s := by
  cases item with
  | file content =>
    cases content with
    | none => simp [copyItem, CopyFile]
    | some text =>
      cases hl : lookupEntry name dest with
      | none => simp [copyItem, CopyFile, hl]
      | some node => cases node <;> simp [copyItem, CopyFile, hl]
  | dir sub =>
    cases hl : lookupEntry name dest with
    | some child => simp [copyItem, hl]
    | none =>
      cases hsub : copyEntries sub [] st with
      | fatal => simp [copyItem, hl, hsub]
      | err d' s' => exact absurd hsub (copyEntries_never_err _ _ _ _ _)
      | ok d' s' => simp [copyItem, hl, hsub]

/-- If some entry of the source listing contains an unopenable file, the
`CopyFolder` loop ends in `log.Fatal`. -/
theorem copyEntries_fatal_of_unreadable :
    ∀ (items : List (String × SrcNode)) (dest : Entries) (st : Store),
      entriesUnreadable items = true → copyEntries items dest st = .fatal := by
  refine @copyEntries.induct
    (fun name item dest st => itemUnreadable item = true → copyItem name item dest st = .fatal)
    (fun items dest st => entriesUnreadable items = true → copyEntries items dest st = .fatal)
    ?_ ?_ ?_ ?_ ?_ ?_ ?_ ?_ ?_
  · intro name dest st sub child hl hu
    simp [copyItem, hl]
  · intro name dest st sub hl hsub ih hu
    simp [copyItem, hl, hsub]
  · intro name dest st sub hl d st' hsub ih hu
    exact absurd hsub (copyEntries_never_err _ _ _ _ _)
  · intro name dest st sub hl d st' hsub ih hu
    rw [itemUnreadable] at hu
    rw [ih hu] at hsub
    cases hsub
  · intro name dest st content hu
    rw [itemUnreadable] at hu
    cases content with
    | none => simp [copyItem, CopyFile]
    | some text => simp [Option.isNone] at hu
  · intro dest st hu
    cases hu
  · intro dest st name item rest h ih hu
    simp [copyEntries, h]
  · intro dest st name item rest d st' h ih hu
    exact absurd h (copyItem_never_err _ _ _ _ _ _)
  · intro dest st name item rest d st' h ih1 ih2 hu
    rw [entriesUnreadable, Bool.or_eq_true] at hu
    rcases hu with hu | hu
    · rw [ih1 hu] at h
      cases h
    · simp only [copyEntries, h]
      exact ih2 hu

/-- Claim C5 (amended): a source file that cannot be opened during the walk
is not a recorded per-file failure — `CopyFile` calls `log.Fatal`, so the
whole run aborts and the remaining entries are not processed. -/
theorem copyFolder_fatal_of_unreadable (source : SrcNode) (dest : Entries) (st : Store)
    (h : itemUnreadable source = true) : CopyFolder source dest st = .fatal := by
  cases source with
  | file content => rfl
  | dir items =>
    rw [itemUnreadable] at h
    exact copyEntries_fatal_of_unreadable items dest st h

/-- Claim C5 witness: a directory whose only file is unopenable makes the
walk die. -/
theorem copyFolder_fatal_of_unreadable_witness :
    CopyFolder (.dir [("only.txt", .file none)]) [] ⟨[], 0⟩ = .fatal :=
  copyFolder_fatal_of_unreadable (.dir [("only.txt", .file none)]) [] ⟨[], 0⟩ rfl

/-- In a list sorted by `strLe`, every element is `strLe` the last one. -/
theorem pairwise_strLe_getLast? :
    ∀ (l : List String), List.Pairwise (fun a b => strLe a b = true) l →
      ∀ x, l.getLast? = some x → ∀ a ∈ l, strLe a x = true := by
  intro l
  induction l with
  | nil =>
    intro _ x hx
    cases hx
  | cons y rest ih =>
    intro hp x hx a ha
    cases rest with
    | nil =>
      simp only [List.getLast?_singleton, Option.some.injEq] at hx
      simp only [List.mem_singleton] at ha
      rw [ha, hx]
      exact strLe_refl x
    | cons z rest2 =>
      rw [List.getLast?_cons_cons] at hx
      rcases List.mem_cons.mp ha with hay | harest
      · subst hay
        exact (List.pairwise_cons.mp hp).1 x (List.mem_of_mem_getLast? hx)
      · exact ih (List.pairwise_cons.mp hp).2 x hx a harest

/-- Claim C6: over a destination listing (which `ioutil.ReadDir` yields
sorted by name), `FindLatestSet` returns the byte-lexicographically greatest
name satisfying `IsBackupSetName`, ignoring every entry whose name does not
match the set-name shape. -/
theorem findLatestSet_lex_greatest (names : List String)
    (hs : List.Pairwise (fun a b => strLe a b = true) names) :
    (∀ m ∈ names, IsBackupSetName m = true → strLe m (FindLatestSet names) = true) ∧
    ((∃ m ∈ names, IsBackupSetName m = true) →
      FindLatestSet names ∈ names ∧ IsBackupSetName (FindLatestSet names) = true) := by
  have hsub : List.Sublist (names.filter IsBackupSetName) names := List.filter_sublist names
  have hp : List.Pairwise (fun a b => strLe a b = true) (names.filter IsBackupSetName) :=
    hs.sublist hsub
  cases hl : (names.filter IsBackupSetName).getLast? with
  | none =>
    rw [List.getLast?_eq_none_iff] at hl
    constructor
    · intro m hm hset
      have : m ∈ names.filter IsBackupSetName := List.mem_filter.mpr ⟨hm, hset⟩
      rw [hl] at this
      cases this
    · rintro ⟨m, hm, hset⟩
      have : m ∈ names.filter IsBackupSetName := List.mem_filter.mpr ⟨hm, hset⟩
      rw [hl] at this
      cases this
  | some x =>
    have hfx : FindLatestSet names = x := by
      simp [FindLatestSet, hl]
    have hxmem : x ∈ names.filter IsBackupSetName := List.mem_of_mem_getLast? hl
    constructor
    · intro m hm hset
      rw [hfx]
      exact pairwise_strLe_getLast? _ hp x hl m (List.mem_filter.mpr ⟨hm, hset⟩)
    · intro _
      rw [hfx]
      exact ⟨(List.mem_filter.mp hxmem).1, (List.mem_filter.mp hxmem).2⟩

/-- Claim C6 witness: on a sorted listing mixing set and non-set names, the
result dominates the other set name and is itself a set name. -/
theorem findLatestSet_lex_greatest_witness :
    strLe "dhb-set-20200101-005900"
      (FindLatestSet ["aaa", "dhb-set-20200101-005900", "dhb-set-20200102-010203", "zzz"]) = true ∧
    IsBackupSetName
      (FindLatestSet ["aaa", "dhb-set-20200101-005900", "dhb-set-20200102-010203", "zzz"]) = true :=
  ⟨(findLatestSet_lex_greatest
      ["aaa", "dhb-set-20200101-005900", "dhb-set-20200102-010203", "zzz"] (by decide)).1
      "dhb-set-20200101-005900" (by decide) (by decide),
   ((findLatestSet_lex_greatest
      ["aaa", "dhb-set-20200101-005900", "dhb-set-20200102-010203", "zzz"] (by decide)).2
      ⟨"dhb-set-20200101-005900", by decide, by decide⟩).2⟩

/-! Digits of `Nat.repr`, for the set-name format claim. -/

theorem digitChar_isDigit : ∀ n, n < 10 → (Nat.digitChar n).isDigit = true := by decide

theorem toDigitsCore_all_digits :
    ∀ (f n : Nat) (acc : List Char), (∀ c ∈ acc, c.isDigit = true) →
      ∀ c ∈ Nat.toDigitsCore 10 f n acc, c.isDigit = true := by
  intro f
  induction f with
  | zero =>
    intro n acc hacc c hc
    exact hacc c hc
  | succ f ih =>
    intro n acc hacc c hc
    simp only [Nat.toDigitsCore] at hc
    by_cases h : n / 10 = 0
    · rw [if_pos h] at hc
      rcases List.mem_cons.mp hc with h1 | h1
      · rw [h1]
        exact digitChar_isDigit _ (Nat.mod_lt n (by norm_num))
      · exact hacc c h1
    · rw [if_neg h] at hc
      refine ih (n / 10) (Nat.digitChar (n % 10) :: acc) ?_ c hc
      intro c2 hc2
      rcases List.mem_cons.mp hc2 with h1 | h1
      · rw [h1]
        exact digitChar_isDigit _ (Nat.mod_lt n (by norm_num))
      · exact hacc c2 h1

theorem repr_all_digits (n : Nat) : ∀ c ∈ (Nat.repr n).toList, c.isDigit = true := by
  intro c hc
  exact toDigitsCore_all_digits (n + 1) n [] (by intro c2 hc2; cases hc2) c hc

theorem sprintfPad_toList (w n : Nat) :
    (sprintfPad w n).toList =
      List.replicate (w - (Nat.repr n).length) '0' ++ (Nat.repr n).toList := rfl

theorem sprintfPad_all_digits (w n : Nat) : ∀ c ∈ (sprintfPad w n).toList, c.isDigit = true := by
  intro c hc
  rw [sprintfPad_toList] at hc
  rcases List.mem_append.mp hc with h | h
  · rw [List.eq_of_mem_replicate h]
    rfl
  · exact repr_all_digits n c h

theorem sprintfPad_length (w n : Nat) (h : (Nat.repr n).length ≤ w) :
    (sprintfPad w n).toList.length = w := by
  rw [sprintfPad_toList, List.length_append, List.length_replicate]
  have hls : (Nat.repr n).toList.length = (Nat.repr n).length := rfl
  omega

/-- Any string assembled as `dhb-set-` + 8 digit characters + `-` + 6 digit
characters passes the `IsBackupSetName` regex. -/
theorem isBackupSetName_build (a b c d e f : String)
    (ha : a.toList.length = 4) (hb : b.toList.length = 2) (hc : c.toList.length = 2)
    (hd : d.toList.length = 2) (he : e.toList.length = 2) (hf : f.toList.length = 2)
    (da : ∀ ch ∈ a.toList, ch.isDigit = true) (db : ∀ ch ∈ b.toList, ch.isDigit = true)
    (dc : ∀ ch ∈ c.toList, ch.isDigit = true) (dd : ∀ ch ∈ d.toList, ch.isDigit = true)
    (de : ∀ ch ∈ e.toList, ch.isDigit = true) (df : ∀ ch ∈ f.toList, ch.isDigit = true) :
    IsBackupSetName ("dhb-set-" ++ a ++ b ++ c ++ "-" ++ d ++ e ++ f) = true := by
  have hpre : "dhb-set-".toList.length = 8 := rfl
  have hsplit : ("dhb-set-" ++ a ++ b ++ c ++ "-" ++ d ++ e ++ f).toList =
      "dhb-set-".toList ++
        ((a.toList ++ b.toList ++ c.toList) ++
          '-' :: (d.toList ++ e.toList ++ f.toList)) := by
    show "dhb-set-".toList ++ a.toList ++ b.toList ++ c.toList ++ "-".toList
        ++ d.toList ++ e.toList ++ f.toList = _
    simp [List.append_assoc]
  have hmid : (a.toList ++ b.toList ++ c.toList).length = 8 := by
    simp only [List.length_append]
    omega
  have htail : (d.toList ++ e.toList ++ f.toList).length = 6 := by
    simp only [List.length_append]
    omega
  have hdrop8 : ("dhb-set-" ++ a ++ b ++ c ++ "-" ++ d ++ e ++ f).toList.drop 8 =
      (a.toList ++ b.toList ++ c.toList) ++ '-' :: (d.toList ++ e.toList ++ f.toList) := by
    rw [hsplit]
    exact List.drop_left' hpre
  have hdrop16 : ("dhb-set-" ++ a ++ b ++ c ++ "-" ++ d ++ e ++ f).toList.drop 16 =
      '-' :: (d.toList ++ e.toList ++ f.toList) := by
    rw [hsplit, ← List.append_assoc]
    refine List.drop_left' ?_
    simp only [List.length_append]
    omega
  have hdrop17 : ("dhb-set-" ++ a ++ b ++ c ++ "-" ++ d ++ e ++ f).toList.drop 17 =
      d.toList ++ e.toList ++ f.toList := by
    have h1617 : (16 : Nat) + 1 = 17 := rfl
    rw [← h1617, ← List.drop_drop, hdrop16, List.drop_one, List.tail_cons]
  simp only [IsBackupSetName, Bool.and_eq_true, decide_eq_true_eq, List.all_eq_true]
  refine ⟨⟨⟨⟨?_, ?_⟩, ?_⟩, ?_⟩, ?_⟩
  · rw [hsplit]
    simp only [List.length_append, List.length_cons]
    omega
  · rw [hsplit]
    exact List.take_left' hpre
  · intro ch hch
    rw [hdrop8, List.take_left' hmid] at hch
    rcases List.mem_append.mp hch with h1 | h1
    · rcases List.mem_append.mp h1 with h2 | h2
      · exact da ch h2
      · exact db ch h2
    · exact dc ch h1
  · rw [hdrop16]
    rfl
  · intro ch hch
    rw [hdrop17] at hch
    rcases List.mem_append.mp hch with h1 | h1
    · rcases List.mem_append.mp h1 with h2 | h2
      · exact dd ch h2
      · exact de ch h2
    · exact df ch h1

/-- Claim C8: `GenerateName` formats `dhb-set-YYYYMMDD-hhmmss` from the
provided time's fields with zero padding (for every time whose fields fit
their slots, the result matches the set-name shape), and in particular
`2001-02-03 14:05:06` yields exactly `dhb-set-20010203-140506` (and
`1998-12-31 09:59:58` yields `dhb-set-19981231-095958`). -/
theorem generateName_format :
    (∀ t : GoTime, t.year < 10000 → t.month < 100 → t.day < 100 → t.hour < 100 →
      t.minute < 100 → t.second < 100 → IsBackupSetName (GenerateName t) = true) ∧
    GenerateName ⟨2001, 2, 3, 14, 5, 6⟩ = "dhb-set-20010203-140506" ∧
    GenerateName ⟨1998, 12, 31, 9, 59, 58⟩ = "dhb-set-19981231-095958" := by
  refine ⟨?_, rfl, rfl⟩
  intro t hy hmo hd hh hmi hs
  have p4 : (10 : Nat) ^ 4 = 10000 := by norm_num
  have p2 : (10 : Nat) ^ 2 = 100 := by norm_num
  show IsBackupSetName ("dhb-set-" ++ sprintfPad 4 t.year ++ sprintfPad 2 t.month
    ++ sprintfPad 2 t.day ++ "-" ++ sprintfPad 2 t.hour ++ sprintfPad 2 t.minute
    ++ sprintfPad 2 t.second) = true
  exact isBackupSetName_build _ _ _ _ _ _
    (sprintfPad_length 4 _ (Nat.repr_length _ 4 (by norm_num) (p4 ▸ hy)))
    (sprintfPad_length 2 _ (Nat.repr_length _ 2 (by norm_num) (p2 ▸ hmo)))
    (sprintfPad_length 2 _ (Nat.repr_length _ 2 (by norm_num) (p2 ▸ hd)))
    (sprintfPad_length 2 _ (Nat.repr_length _ 2 (by norm_num) (p2 ▸ hh)))
    (sprintfPad_length 2 _ (Nat.repr_length _ 2 (by norm_num) (p2 ▸ hmi)))
    (sprintfPad_length 2 _ (Nat.repr_length _ 2 (by norm_num) (p2 ▸ hs)))
    (sprintfPad_all_digits 4 _) (sprintfPad_all_digits 2 _) (sprintfPad_all_digits 2 _)
    (sprintfPad_all_digits 2 _) (sprintfPad_all_digits 2 _) (sprintfPad_all_digits 2 _)

/-- Claim C8 witness: the name generated for `2019-12-31 09:59:58` passes
the set-name regex. -/
theorem generateName_format_witness :
    IsBackupSetName (GenerateName ⟨2019, 12, 31, 9, 59, 58⟩) = true :=
  generateName_format.1 ⟨2019, 12, 31, 9, 59, 58⟩ (by norm_num) (by norm_num)
    (by norm_num) (by norm_num) (by norm_num) (by norm_num)

/-- The `HardLinkCopy` loop only ever adds entries whose names were absent,
so every binding already present in the destination directory survives. -/
theorem hlEntries_frame :
    ∀ (items : List (String × DNode)) (dest : Entries) (d : Entries),
      (hlEntries items dest = .ok d ∨ hlEntries items dest = .err d) →
      ∀ k v, lookupEntry k dest = some v → lookupEntry k d = some v := by
  refine @hlEntries.induct
    (fun name node dest => ∀ d,
      (linkItem name node dest = .ok d ∨ linkItem name node dest = .err d) →
      ∀ k v, lookupEntry k dest = some v → lookupEntry k d = some v)
    (fun items dest => ∀ d,
      (hlEntries items dest = .ok d ∨ hlEntries items dest = .err d) →
      ∀ k v, lookupEntry k dest = some v → lookupEntry k d = some v)
    ?_ ?_ ?_ ?_ ?_ ?_ ?_ ?_ ?_ ?_
  · intro name dest ino child hl d hd k v hv
    rcases hd with h | h
    · simp [linkItem, hl] at h
    · simp only [linkItem, hl, HLRes.err.injEq] at h
      subst h
      exact hv
  · intro name dest ino hl d hd k v hv
    rcases hd with h | h
    · simp only [linkItem, hl, HLRes.ok.injEq] at h
      subst h
      rw [lookupEntry_insertEntry]
      by_cases hk : k = name
      · subst hk
        rw [hl] at hv
        cases hv
      · rw [if_neg hk]
        exact hv
    · simp [linkItem, hl] at h
  · intro name dest sub child hl d hd k v hv
    rcases hd with h | h <;> simp [linkItem, hl] at h
  · intro name dest sub hl hsub ih d hd k v hv
    rcases hd with h | h <;> simp [linkItem, hl, hsub] at h
  · intro name dest sub hl d2 hsub ih d hd k v hv
    rcases hd with h | h
    · simp [linkItem, hl, hsub] at h
    · simp only [linkItem, hl, hsub, HLRes.err.injEq] at h
      subst h
      rw [lookupEntry_insertEntry]
      by_cases hk : k = name
      · subst hk
        rw [hl] at hv
        cases hv
      · rw [if_neg hk]
        exact hv
  · intro name dest sub hl d2 hsub ih d hd k v hv
    rcases hd with h | h
    · simp only [linkItem, hl, hsub, HLRes.ok.injEq] at h
      subst h
      rw [lookupEntry_insertEntry]
      by_cases hk : k = name
      · subst hk
        rw [hl] at hv
        cases hv
      · rw [if_neg hk]
        exact hv
    · simp [linkItem, hl, hsub] at h
  · intro dest d hd k v hv
    rcases hd with h | h
    · simp only [hlEntries, HLRes.ok.injEq] at h
      subst h
      exact hv
    · simp [hlEntries] at h
  · intro dest n v rest h ih d hd k v2 hv
    rcases hd with h2 | h2 <;> simp [hlEntries, h] at h2
  · intro dest n v rest d0 h ih d hd k v2 hv
    rcases hd with h2 | h2
    · simp [hlEntries, h] at h2
    · simp only [hlEntries, h, HLRes.err.injEq] at h2
      subst h2
      exact ih d0 (Or.inr h) k v2 hv
  · intro dest n v rest d0 h ih1 ih2 d hd k v2 hv
    have hstep : hlEntries ((n, v) :: rest) dest = hlEntries rest d0 := by
      simp [hlEntries, h]
    rw [hstep] at hd
    exact ih2 d hd k v2 (ih1 d0 (Or.inl h) k v2 hv)

/-- When the `HardLinkCopy` loop succeeds, every regular file of the source
listing reappears at the same relative path in the built destination with
the same inode, and every source directory reappears as a directory. -/
theorem hlEntries_links :
    ∀ (items : List (String × DNode)) (dest : Entries) (d : Entries),
      hlEntries items dest = .ok d →
      (∀ p ino, getNodeAt (.dir items) p = some (.file ino) →
        getNodeAt (.dir d) p = some (.file ino)) ∧
      (∀ p sub, getNodeAt (.dir items) p = some (.dir sub) →
        ∃ sub2, getNodeAt (.dir d) p = some (.dir sub2)) := by
  refine @hlEntries.induct
    (fun name node dest => ∀ d, linkItem name node dest = .ok d →
      (∀ p ino, getNodeAt node p = some (.file ino) →
        getNodeAt (.dir d) (name :: p) = some (.file ino)) ∧
      (∀ p sub, getNodeAt node p = some (.dir sub) →
        ∃ sub2, getNodeAt (.dir d) (name :: p) = some (.dir sub2)))
    (fun items dest => ∀ d, hlEntries items dest = .ok d →
      (∀ p ino, getNodeAt (.dir items) p = some (.file ino) →
        getNodeAt (.dir d) p = some (.file ino)) ∧
      (∀ p sub, getNodeAt (.dir items) p = some (.dir sub) →
        ∃ sub2, getNodeAt (.dir d) p = some (.dir sub2)))
    ?_ ?_ ?_ ?_ ?_ ?_ ?_ ?_ ?_ ?_
  · intro name dest ino child hl d h
    simp [linkItem, hl] at h
  · intro name dest ino hl d h
    simp only [linkItem, hl, HLRes.ok.injEq] at h
    subst h
    have hname : lookupEntry name (insertEntry name (.file ino) dest) = some (.file ino) := by
      rw [lookupEntry_insertEntry, if_pos rfl]
    constructor
    · intro p ino2 h2
      cases p with
      | nil =>
        simp only [getNodeAt, Option.some.injEq, DNode.file.injEq] at h2
        subst h2
        simp [getNodeAt, hname]
      | cons x p' => simp [getNodeAt] at h2
    · intro p sub h2
      cases p with
      | nil => simp [getNodeAt] at h2
      | cons x p' => simp [getNodeAt] at h2
  · intro name dest sub child hl d h
    simp [linkItem, hl] at h
  · intro name dest sub hl hsub ih d h
    simp [linkItem, hl, hsub] at h
  · intro name dest sub hl d2 hsub ih d h
    simp [linkItem, hl, hsub] at h
  · intro name dest sub hl d2 hsub ih d h
    simp only [linkItem, hl, hsub, HLRes.ok.injEq] at h
    subst h
    have hname : lookupEntry name (insertEntry name (.dir d2) dest) = some (.dir d2) := by
      rw [lookupEntry_insertEntry, if_pos rfl]
    obtain ⟨ihf, ihd⟩ := ih d2 hsub
    constructor
    · intro p ino2 h2
      simp only [getNodeAt, hname]
      exact ihf p ino2 h2
    · intro p sub2 h2
      simp only [getNodeAt, hname]
      exact ihd p sub2 h2
  · intro dest d h
    simp only [hlEntries, HLRes.ok.injEq] at h
    subst h
    constructor
    · intro p ino h2
      cases p with
      | nil => simp [getNodeAt] at h2
      | cons x p' => simp [getNodeAt, lookupEntry] at h2
    · intro p sub h2
      cases p with
      | nil => exact ⟨dest, rfl⟩
      | cons x p' => simp [getNodeAt, lookupEntry] at h2
  · intro dest n v rest h ih d h2
    simp [hlEntries, h] at h2
  · intro dest n v rest d0 h ih d h2
    simp [hlEntries, h] at h2
  · intro dest n v rest d0 h ih1 ih2 d hd
    have hstep : hlEntries ((n, v) :: rest) dest = hlEntries rest d0 := by
      simp [hlEntries, h]
    rw [hstep] at hd
    obtain ⟨ihf0, ihd0⟩ := ih1 d0 h
    obtain ⟨ihf, ihd⟩ := ih2 d hd
    constructor
    · intro p ino h2
      cases p with
      | nil => simp [getNodeAt] at h2
      | cons x p' =>
        by_cases hx : x = n
        · subst hx
          simp only [getNodeAt, lookupEntry, if_pos rfl] at h2
          have hres := ihf0 p' ino h2
          cases hc : lookupEntry x d0 with
          | none => simp [getNodeAt, hc] at hres
          | some c =>
            have hcd : lookupEntry x d = some c :=
              hlEntries_frame rest d0 d (Or.inl hd) x c hc
            simp only [getNodeAt, hc] at hres
            simp only [getNodeAt, hcd]
            exact hres
        · simp only [getNodeAt, lookupEntry, if_neg hx] at h2
          exact ihf (x :: p') ino (by simp only [getNodeAt]; exact h2)
    · intro p sub h2
      cases p with
      | nil => exact ⟨d, rfl⟩
      | cons x p' =>
        by_cases hx : x = n
        · subst hx
          simp only [getNodeAt, lookupEntry, if_pos rfl] at h2
          obtain ⟨sub2, hres⟩ := ihd0 p' sub h2
          cases hc : lookupEntry x d0 with
          | none => simp [getNodeAt, hc] at hres
          | some c =>
            have hcd : lookupEntry x d = some c :=
              hlEntries_frame rest d0 d (Or.inl hd) x c hc
            simp only [getNodeAt, hc] at hres
            refine ⟨sub2, ?_⟩
            simp only [getNodeAt, hcd]
            exact hres
        · simp only [getNodeAt, lookupEntry, if_neg hx] at h2
          exact ihd (x :: p') sub (by simp only [getNodeAt]; exact h2)

/-- Claim C10: when `HardLinkCopy(source, dest)` returns nil, every regular
file at relative path `p` under the source exists at `dest/p` on the same
inode (`os.SameFile` would hold), and every source directory exists under
the destination as a directory of its own (not a link); `Backup` runs this
pre-linking of the whole previous set before any file copying. -/
theorem hardLinkCopy_ok_links (source : DNode) (dest d : Entries)
    (h : HardLinkCopy source dest = .ok d) :
    (∀ p ino, getNodeAt source p = some (.file ino) →
      getNodeAt (.dir d) p = some (.file ino)) ∧
    (∀ p sub, getNodeAt source p = some (.dir sub) →
      ∃ sub2, getNodeAt (.dir d) p = some (.dir sub2)) := by
  cases source with
  | file ino => simp [HardLinkCopy] at h
  | dir items => exact hlEntries_links items dest d h

/-- Claim C10 witness: a two-level source set is fully pre-linked into an
empty destination — the deep file keeps its inode and the directory is
recreated. -/
theorem hardLinkCopy_ok_links_witness :
    getNodeAt (.dir [("chain", DNode.dir [("linkme2.txt", DNode.file 5)])])
      ["chain", "linkme2.txt"] = some (.file 5) ∧
    (∃ sub2, getNodeAt (.dir [("chain", DNode.dir [("linkme2.txt", DNode.file 5)])])
      ["chain"] = some (.dir sub2)) :=
  ⟨(hardLinkCopy_ok_links (.dir [("chain", .dir [("linkme2.txt", .file 5)])]) []
      [("chain", DNode.dir [("linkme2.txt", DNode.file 5)])] rfl).1
      ["chain", "linkme2.txt"] 5 rfl,
   (hardLinkCopy_ok_links (.dir [("chain", .dir [("linkme2.txt", .file 5)])]) []
      [("chain", DNode.dir [("linkme2.txt", DNode.file 5)])] rfl).2
      ["chain"] [("linkme2.txt", DNode.file 5)] rfl⟩

/-- Claim C1: a backup run over a destination holding previous sets leaves
every previously created set's file contents unchanged (no inode of an
earlier set is truncated or rewritten).  The code violates this: `Backup`
hard-links the whole previous set into the new set, then `CopyFile` opens
each destination path with `os.Create`, truncating and rewriting the shared
inode, so a changed source file replaces the bytes stored in the earlier
set.  After run 1 stores `hello go`, run 2 over the mutated source leaves
the *old* set's `linkme.txt` reading `changed content`. -/
theorem backup_rewrites_previous_set_contents :
    Backup linkSrc1 emptyDest runTime1 = ("dhb-set-20200101-005900", .ok fsAfterRun1) ∧
    fsAfterRun1.readFile ["dhb-set-20200101-005900", "linkme.txt"] = some "hello go" ∧
    Backup linkSrc2 fsAfterRun1 runTime2 = ("dhb-set-20200101-015900", .ok fsAfterRun2) ∧
    fsAfterRun2.readFile ["dhb-set-20200101-005900", "linkme.txt"] = some "changed content" :=
  ⟨rfl, rfl, rfl, rfl⟩

/-- Claim C2: after a content change between runs, the new set's copy must
not share an inode with the previous set's copy, and a manifest must hold
the new hash.  The code violates this: `os.Create` truncates through the
hard link instead of breaking it, so both copies still sit on one inode
(`os.SameFile` is true), and no manifest file is written at all. -/
theorem backup_changed_file_still_shares_inode :
    (Backup linkSrc2 fsAfterRun1 runTime2).2 = .ok fsAfterRun2 ∧
    sameFile fsAfterRun2 ["dhb-set-20200101-005900", "linkme.txt"]
      ["dhb-set-20200101-015900", "linkme.txt"] = true ∧
    fsAfterRun2.readFile ["dhb-set-20200101-015900", "linkme.txt"] = some "changed content" ∧
    getNodeAt (.dir fsAfterRun2.root)
      ["dhb-set-20200101-015900", "disk-hog-backup-hashes.md5"] = none :=
  ⟨rfl, rfl, rfl, rfl⟩

/-- Claim C3: backing up an unmodified source tree twice succeeds and the
second set's files are hard links to the first set's.  The code violates the
success half whenever the source has a subdirectory: `HardLinkCopy` creates
the mirrored directories in the new set first, and `CopyFolder` then calls
`os.Mkdir` on those already existing directories, whose error is
`log.Fatal` — the repository's own `TestHardLinksSecondBackup` fixture
(`thats/deep/testfile.txt`) makes the second run die. -/
theorem backup_second_run_fatal_on_subdirectory :
    Backup deepSrc emptyDest runTime1 = ("dhb-set-20200101-005900", .ok fsDeepAfterRun1) ∧
    (Backup deepSrc fsDeepAfterRun1 runTime2).2 = .fatal :=
  ⟨rfl, rfl⟩

/-- Claim C4, counterexample: the claim also asserts a manifest file whose
single line is the md5 of the body; the run produces the set directory with
the copied file as its only entry and writes no manifest of any name. -/
theorem backup_single_file_no_manifest :
    Backup singleSrc emptyDest freshTime = ("dhb-set-20240101-000000", .ok fsSingleAfter) ∧
    fsSingleAfter.readFile ["dhb-set-20240101-000000", "testfile.txt"] = some "backmeup susie\n" ∧
    fsSingleAfter.root = [("dhb-set-20240101-000000", .dir [("testfile.txt", .file 0)])] ∧
    getNodeAt (.dir fsSingleAfter.root)
      ["dhb-set-20240101-000000", "disk-hog-backup-hashes.md5"] = none :=
  ⟨rfl, rfl, rfl, rfl⟩

/-- Claim C5, counterexample: a source file that cannot be opened is not a
recorded per-file failure — `CopyFile` calls `log.Fatal`, so the walk stops
dead and the remaining entry `good.txt` is never copied. -/
theorem copyFolder_fatal_on_unopenable_file :
    CopyFolder unreadableSrc [] ⟨[], 0⟩ = .fatal :=
  rfl

end DiskHog
